import Mathlib

/-!
Verification of the manifest-driven firmware download pipeline implemented in
firmware/firmware_handler.py.  Python strings are shallowly embedded as
List Char; the Python string operations used by the handler (str.split with an
explicit separator, substring membership via find, str.replace, str.lower,
the re.sub word-character substitution) are given executable Lean versions
below, and the handler methods are translated function by function.  External
effects (the HTTP transport, the hash check of the downloaded bytes, the
filesystem) enter as oracle parameters, and Python exceptions are modelled by
Option: none means the call raised.
-/

/-- Boolean test that the first list is a prefix of the second
(what Python uses internally when scanning for a separator occurrence). -/
def isPre : List Char → List Char → Bool
  | [], _ => true
  | _ :: _, [] => false
  | a :: as, b :: bs => a == b && isPre as bs

/-- Fuel-driven worker for Python str.split with an explicit separator.
At each position, if the separator starts here, emit a boundary and skip it;
otherwise the current character extends the first field.  The fuel is only a
structural-termination device: pySplit always supplies enough. -/
def splitSeqF (sep : List Char) : Nat → List Char → List (List Char)
  | _, [] => [[]]
  | 0, xs => [xs]
  | fuel + 1, x :: xs =>
    if isPre sep (x :: xs) then
      [] :: splitSeqF sep fuel ((x :: xs).drop sep.length)
    else
      match splitSeqF sep fuel xs with
      | [] => [[x]]
      | y :: ys => (x :: y) :: ys

/-- Python s.split(sep) for a non-empty separator: keeps empty fields,
scans for leftmost occurrences. -/
def pySplit (sep xs : List Char) : List (List Char) :=
  splitSeqF sep xs.length xs

/-- Python s.find(sep) != -1: does sep occur as a contiguous block of xs. -/
def occursB (sep xs : List Char) : Bool :=
  (List.range (xs.length + 1)).any (fun i => isPre sep (xs.drop i))

/-- Python list[-1] on the (always non-empty) result of a split. -/
def lastD : List (List Char) → List Char
  | [] => []
  | [x] => x
  | _ :: x :: xs => lastD (x :: xs)

/-- Modelled from the spec: the Firmware record class (its source file
firmware/firmware.py is not part of the sources here; §3 of the spec and the
constructor calls in firmware_handler.py give the fields).  The constructor
argument order matches Firmware(name, version, freifunk_verein,
release_model, file, url). -/
structure Firmware where
  name : List Char
  version : List Char
  freifunk_verein : List Char
  release_model : List Char
  file : List Char
  url : List Char
deriving DecidableEq

/-- FirmwareHandler.UPDATE_TYPE. -/
def UPDATE_TYPE : List Char := "sysupgrade".data

/-- FirmwareHandler._parse_router_model.  tmp = router_model.split(" v");
name = re.sub(nonword, "-", tmp[0].lower()); version = "v" + tmp[1].
A missing " v" separator makes the Python code raise IndexError: none. -/
def parse_router_model (router_model : List Char) : Option (List Char × List Char) :=
  match pySplit " v".data router_model with
  | t0 :: t1 :: _ =>
    some ((t0.map Char.toLower).map (fun c => if c.isAlphanum || c == '_' then c else '-'),
          'v' :: t1)
  | _ => none

/-- The for-loop of FirmwareHandler.get_stored_firmware: first record whose
name contains the key as a substring. -/
def fw_find (key : List Char) : List Firmware → Option Firmware
  | [] => none
  | f :: fs => if occursB key f.name then some f else fw_find key fs

/-- FirmwareHandler.get_stored_firmware.  some none models the Python
return None ("not found"); the outer none models the IndexError raised by
_parse_router_model on a key without " v". -/
def get_stored_firmware (firmwares : List Firmware) (router_model : List Char) :
    Option (Option Firmware) :=
  (parse_router_model router_model).map (fun p => fw_find (p.1 ++ '-' :: p.2) firmwares)

/-- The while-loop shared by _verified_download and _download_manifest:
while (not valid) & (count < max): valid = download(); if valid: valid =
check(); count += 1.  dl k / chk k are the outcomes of the k-th download
attempt and its hash check; the result is (valid, final count).  The fuel
argument is max_attempts - count. -/
def vdLoop (dl chk : Nat → Bool) : Nat → Nat → Bool × Nat
  | 0, count => (false, count)
  | fuel + 1, count =>
    if dl count && chk count then (true, count + 1)
    else vdLoop dl chk fuel (count + 1)

/-- FirmwareHandler._verified_download: the boolean the method returns
(False whenever count >= max_attempts after the loop) paired with the number
of _download_file calls it performed. -/
def verified_download (dl chk : Nat → Bool) (max_attempts : Nat) : Bool × Nat :=
  let r := vdLoop dl chk max_attempts 0
  (if max_attempts ≤ r.2 then false else true, r.2)

/-- One _verified_download call for a given firmware and expected hash,
driven by per-firmware transport and hash oracles. -/
def verify_fw (dl : Firmware → Nat → Bool) (chk : Firmware → List Char → Nat → Bool)
    (f : Firmware) (h : List Char) (max_attempts : Nat) : Bool :=
  (verified_download (dl f) (chk f h) max_attempts).1

/-- The matching loop of FirmwareHandler.download_firmware: on the first
name containing the key, run the verified download (its result is discarded)
and return that record; hashs is traversed in step with firmwares. -/
def df_loop (key : List Char) (dl : Firmware → Nat → Bool)
    (chk : Firmware → List Char → Nat → Bool) (max_attempts : Nat) :
    List Firmware → List (List Char) → Option Firmware
  | [], _ => none
  | f :: fs, hs =>
    if occursB key f.name then
      let _ := verify_fw dl chk f (hs.headD []) max_attempts
      some f
    else df_loop key dl chk max_attempts fs hs.tail

/-- FirmwareHandler.download_firmware after the manifest has been fetched and
parsed into the two lists (lines 109-115 of the source). -/
def download_firmware_list (dl : Firmware → Nat → Bool)
    (chk : Firmware → List Char → Nat → Bool) (firmwares : List Firmware)
    (hashs : List (List Char)) (router_model : List Char) (max_attemps : Nat) :
    Option (Option Firmware) :=
  (parse_router_model router_model).map
    (fun p => df_loop (p.1 ++ '-' :: p.2) dl chk max_attemps firmwares hashs)

/-- The for-loop of FirmwareHandler.download_all_firmwares, including the
del(firmwares[i]) / del(hashs[i]) performed while iterating: i is the index
the Python list iterator holds, read against the current (possibly shrunk)
lists exactly as CPython does. -/
def delLoop (dl : Firmware → Nat → Bool) (chk : Firmware → List Char → Nat → Bool)
    (max_attempts : Nat) :
    Nat → Nat → List Firmware → List (List Char) → List Firmware × List (List Char)
  | 0, _, fs, hs => (fs, hs)
  | fuel + 1, i, fs, hs =>
    if h : i < fs.length then
      if verify_fw dl chk (fs.get ⟨i, h⟩) (hs.getD i []) max_attempts then
        delLoop dl chk max_attempts fuel (i + 1) fs hs
      else
        delLoop dl chk max_attempts fuel (i + 1) (fs.eraseIdx i) (hs.eraseIdx i)
    else (fs, hs)

/-- FirmwareHandler.download_all_firmwares after the manifest has been
fetched and parsed into the two lists (lines 129-136 of the source). -/
def download_all_list (dl : Firmware → Nat → Bool)
    (chk : Firmware → List Char → Nat → Bool) (firmwares : List Firmware)
    (hashs : List (List Char)) (max_attemps : Nat) : List Firmware :=
  (delLoop dl chk max_attemps (firmwares.length + 1) 0 firmwares hashs).1

/-- The manifest path FIRMWARE_PATH/release/sysupgrade/release.manifest
(fpath stands for the environment-dependent FIRMWARE_PATH). -/
def manifest_file (fpath release : List Char) : List Char :=
  fpath ++ '/' :: release ++ '/' :: UPDATE_TYPE ++ '/' :: release ++ ".manifest".data

/-- FirmwareHandler._download_manifest: retry loop over the transport oracle
dlm; on exhaustion (count >= max_count) it returns the empty string. -/
def download_manifest (dlm : Nat → Bool) (max_count : Nat) (fpath release : List Char) :
    List Char :=
  let r := vdLoop dlm (fun _ => true) max_count 0
  if max_count ≤ r.2 then [] else manifest_file fpath release

/-- The enumerate-and-filter loop of _read_firmwares_from_manifest: keep
lines with index at least 4, prefixed with "[" + str(i - 4) + "]  ". -/
def prefix_rows : Nat → List (List Char) → List (List Char)
  | _, [] => []
  | i, l :: ls =>
    if 4 ≤ i then
      ('[' :: (Nat.repr (i - 4)).data ++ ']' :: ' ' :: ' ' :: l) :: prefix_rows (i + 1) ls
    else prefix_rows (i + 1) ls

/-- FirmwareHandler._read_firmwares_from_manifest.  fsys models open():
the list of lines (each with its newline) of the file at a path, or none when
open raises.  The [:-3] slice drops the three footer lines. -/
def read_firmwares_from_manifest (fsys : List Char → Option (List (List Char)))
    (dlm : Nat → Bool) (fpath release : List Char) : Option (List (List Char)) :=
  (fsys (download_manifest dlm 3 fpath release)).map
    (fun lines =>
      let pre := prefix_rows 0 lines
      pre.take (pre.length - 3))

/-- The record construction of _get_all_firmwares for one (already prefixed)
manifest line: name = "gluon" + line.split("gluon")[1].split("-sysupgrade")[0]
+ "-" + UPDATE_TYPE + "." + line.split(".")[-1].replace("\n", "");
hash = line.split(" ")[4]; organization and version are the hyphen fields 1
and 2 of the rebuilt name.  none models the IndexErrors the Python code can
raise on a malformed line. -/
def parse_manifest_line (base fpath release : List Char) (line : List Char) :
    Option (Firmware × List Char) :=
  match pySplit "gluon".data line with
  | _ :: seg :: _ =>
    let frag := (pySplit "-sysupgrade".data seg).headD []
    let ext := (lastD (pySplit ['.'] line)).filter (fun a => a != '\n')
    let fname := "gluon".data ++ frag ++ '-' :: UPDATE_TYPE ++ '.' :: ext
    match (pySplit [' '] line).get? 4 with
    | some hashF =>
      match pySplit ['-'] fname with
      | _ :: verein :: ver :: _ =>
        some (⟨fname, ver, verein, release,
               fpath ++ '/' :: release ++ '/' :: UPDATE_TYPE ++ '/' :: fname,
               base ++ '/' :: release ++ '/' :: UPDATE_TYPE ++ '/' :: fname⟩, hashF)
      | _ => none
    | none => none
  | _ => none

/-- The per-line loop of _get_all_firmwares: lines containing "---\n" are
skipped, every other line must parse. -/
def parse_lines (base fpath release : List Char) :
    List (List Char) → Option (List (Firmware × List Char))
  | [] => some []
  | l :: ls =>
    if occursB "---\n".data l then parse_lines base fpath release ls
    else
      match parse_manifest_line base fpath release l, parse_lines base fpath release ls with
      | some p, some ps => some (p :: ps)
      | _, _ => none

/-- FirmwareHandler._get_all_firmwares: download the manifest, read and
prefix its data lines, and parse each into a (Firmware, hash) pair. -/
def get_all_firmwares (fsys : List Char → Option (List (List Char))) (dlm : Nat → Bool)
    (base fpath release : List Char) : Option (List Firmware × List (List Char)) :=
  (read_firmwares_from_manifest fsys dlm fpath release).bind
    (fun lines =>
      (parse_lines base fpath release lines).map
        (fun ps => (ps.map Prod.fst, ps.map Prod.snd)))

/-- FirmwareHandler.download_firmware (whole method, manifest fetch
included). -/
def download_firmware (fsys : List Char → Option (List (List Char))) (dlm : Nat → Bool)
    (dl : Firmware → Nat → Bool) (chk : Firmware → List Char → Nat → Bool)
    (base fpath release router_model : List Char) (max_attemps : Nat) :
    Option (Option Firmware) :=
  (get_all_firmwares fsys dlm base fpath release).bind
    (fun p => download_firmware_list dl chk p.1 p.2 router_model max_attemps)

/-- FirmwareHandler.download_all_firmwares (whole method, manifest fetch
included). -/
def download_all_firmwares (fsys : List Char → Option (List (List Char))) (dlm : Nat → Bool)
    (dl : Firmware → Nat → Bool) (chk : Firmware → List Char → Nat → Bool)
    (base fpath release : List Char) (max_attemps : Nat) : Option (List Firmware) :=
  (get_all_firmwares fsys dlm base fpath release).map
    (fun p => download_all_list dl chk p.1 p.2 max_attemps)

/-- The record reconstruction of import_firmwares for one stored file name;
a name with fewer than three hyphen fields raises inside the try and is
skipped (none). -/
def import_record (base fpath release : List Char) (fname : List Char) : Option Firmware :=
  match pySplit ['-'] fname with
  | _ :: verein :: ver :: _ =>
    some ⟨fname, ver, verein, release,
          fpath ++ '/' :: release ++ '/' :: UPDATE_TYPE ++ '/' :: fname,
          base ++ '/' :: release ++ '/' :: UPDATE_TYPE ++ '/' :: fname⟩
  | _ => none

/-- FirmwareHandler.import_firmwares: appends the importable records for the
listed file names to the current catalog (files models os.listdir). -/
def import_firmwares (state : List Firmware) (files : List (List Char))
    (base fpath release : List Char) : List Firmware :=
  state ++ files.filterMap (import_record base fpath release)

/-- FirmwareHandler.get_firmware.  Returns the method result (with the same
Option (Option Firmware) convention) together with the catalog self.firmwares
after the call; a raised exception leaves the catalog as the import step left
it. -/
def get_firmware (fsys : List Char → Option (List (List Char))) (dlm : Nat → Bool)
    (dl : Firmware → Nat → Bool) (chk : Firmware → List Char → Nat → Bool)
    (files : List (List Char)) (state : List Firmware)
    (router_model base fpath release : List Char) (download_all : Bool) :
    Option (Option Firmware) × List Firmware :=
  let s1 := import_firmwares state files base fpath release
  if download_all then
    match download_all_firmwares fsys dlm dl chk base fpath release 3 with
    | none => (none, s1)
    | some l => (get_stored_firmware l router_model, l)
  else
    match get_stored_firmware s1 router_model with
    | none => (none, s1)
    | some (some f) => (some (some f), s1)
    | some none =>
      match download_firmware fsys dlm dl chk base fpath release router_model 3 with
      | none => (none, s1)
      | some res =>
        let s2 := s1 ++ (match res with | some f => [f] | none => [])
        (get_stored_firmware s2 router_model, s2)

/-- sep occurs nowhere in xs (as a contiguous block). -/
def NoOcc (sep xs : List Char) : Prop :=
  ∀ i, isPre sep (xs.drop i) = false

/-- No occurrence of sep starts strictly inside a when sep follows a:
the leftmost occurrence of sep in a ++ sep ++ anything is the explicit one. -/
def NoOccBefore (sep a : List Char) : Prop :=
  ∀ i < a.length, isPre sep ((a ++ sep).drop i) = false

instance (sep a : List Char) : Decidable (NoOccBefore sep a) :=
  decidable_of_iff (∀ i < a.length, isPre sep ((a ++ sep).drop i) = false) Iff.rfl


/-- The canonical image-name convention gluon-org-version-sysupgrade.ext. -/
def canonical_name (org ver ext : List Char) : List Char :=
  "gluon-".data ++ org ++ "-".data ++ ver ++ "-sysupgrade.".data ++ ext

/-- A manifest (4 header rows, two data rows, 3 footer rows) whose two
entries both fail their verified download. -/
def demo_manifest_two_rows : List (List Char) :=
  ["h\n".data, "h\n".data, "h\n".data, "h\n".data,
   "a b h1 gluon-ffa-1.0-sysupgrade.bin\n".data,
   "a b h2 gluon-ffb-2.0-sysupgrade.bin\n".data,
   "---\n".data, "x\n".data, "y\n".data]

/-- The manifest of claim C3 taken literally: header rows 0-3, the data row
of the claim at row 4, and a footer starting with --- at row 5. -/
def demo_manifest_claimed_row : List (List Char) :=
  ["h\n".data, "h\n".data, "h\n".data, "h\n".data,
   "gluon-ffhl-1.2.3-sysupgrade.bin ... ... ... abc123hash\n".data,
   "---\n".data, "x\n".data, "y\n".data]

/-- The same manifest with the data row in the layout the parser actually
expects: hash as the third whitespace field, image name as the last field. -/
def demo_manifest_real_row : List (List Char) :=
  ["h\n".data, "h\n".data, "h\n".data, "h\n".data,
   "x y abc123hash gluon-ffhl-1.2.3-sysupgrade.bin\n".data,
   "---\n".data, "x\n".data, "y\n".data]

/-- A manifest with no data rows at all (4 header rows, 3 footer rows). -/
def demo_manifest_empty : List (List Char) :=
  ["h\n".data, "h\n".data, "h\n".data, "h\n".data,
   "---\n".data, "x\n".data, "y\n".data]

/-- A catalog record used in concrete runs. -/
def demo_record : Firmware :=
  ⟨"gluon-x-y-sysupgrade.bin".data, "y".data, "x".data, "stable".data, [], []⟩

/-- Two records whose names both contain the key of router model "A v1". -/
def demo_match_fst : Firmware :=
  ⟨"gluon-ff-1.0-a-v1-sysupgrade.bin".data, "1.0".data, "ff".data, "stable".data, [], []⟩

def demo_match_snd : Firmware :=
  ⟨"gluon-ff-2.0-a-v1-sysupgrade.bin".data, "2.0".data, "ff".data, "stable".data, [], []⟩

theorem isPre_nil (l : List Char) : isPre [] l = true := by cases l <;> rfl

theorem isPre_self_append (s t : List Char) : isPre s (s ++ t) = true := by
  induction s with
  | nil => exact isPre_nil t
  | cons a as ih => simp [isPre, ih]

theorem isPre_of_append_left {sep u : List Char} (v : List Char)
    (h : isPre sep (u ++ v) = true) (hl : sep.length ≤ u.length) : isPre sep u = true := by
  induction sep generalizing u with
  | nil => exact isPre_nil u
  | cons s ss ih =>
    cases u with
    | nil => simp at hl
    | cons b bs =>
      simp only [List.cons_append, isPre, Bool.and_eq_true] at h ⊢
      exact ⟨h.1, ih h.2 (by simpa using hl)⟩

theorem mem_of_isPre_spill {sep u : List Char} {c : Char} (v : List Char)
    (h : isPre sep (u ++ c :: v) = true) (hl : u.length < sep.length) : c ∈ sep := by
  induction u generalizing sep with
  | nil =>
    cases sep with
    | nil => simp at hl
    | cons s ss =>
      simp only [List.nil_append, isPre, Bool.and_eq_true, beq_iff_eq] at h
      simp [h.1]
  | cons b bs ih =>
    cases sep with
    | nil => simp at hl
    | cons s ss =>
      simp only [List.cons_append, isPre, Bool.and_eq_true] at h
      exact List.mem_cons_of_mem _ (ih h.2 (by simpa using hl))

theorem isPre_through_cons {sep u : List Char} {c : Char} (v : List Char)
    (hc : c ∉ sep) (h : isPre sep (u ++ c :: v) = true) : isPre sep u = true := by
  rcases le_or_lt sep.length u.length with hl | hl
  · exact isPre_of_append_left _ h hl
  · exact absurd (mem_of_isPre_spill v h hl) hc

theorem noOcc_nil {sep : List Char} (hs : sep ≠ []) : NoOcc sep [] := by
  intro i
  cases sep with
  | nil => exact absurd rfl hs
  | cons s ss => simp [isPre]

theorem noOcc_iff_cons {sep : List Char} {x : Char} {xs : List Char} :
    NoOcc sep (x :: xs) ↔ isPre sep (x :: xs) = false ∧ NoOcc sep xs := by
  constructor
  · intro h
    refine ⟨h 0, fun i => ?_⟩
    simpa using h (i + 1)
  · rintro ⟨h0, h⟩ i
    cases i with
    | zero => simpa using h0
    | succ j => simpa using h j

theorem noOcc_of_occursB {sep xs : List Char} (hs : sep ≠ [])
    (h : occursB sep xs = false) : NoOcc sep xs := by
  intro i
  rcases le_or_lt i xs.length with hi | hi
  · have h' := (List.any_eq_false.mp h) i (by simp [List.mem_range]; omega)
    simpa using h'
  · rw [List.drop_eq_nil_of_le (by omega)]
    cases sep with
    | nil => exact absurd rfl hs
    | cons s ss => rfl

theorem noOcc_singleton {c : Char} {v : List Char} (hv : c ∉ v) : NoOcc [c] v := by
  induction v with
  | nil => exact noOcc_nil (by simp)
  | cons d vs ih =>
    rw [noOcc_iff_cons]
    refine ⟨?_, ih (fun hm => hv (List.mem_cons_of_mem _ hm))⟩
    have hcd : c ≠ d := fun hcd => hv (by simp [hcd])
    simp [isPre, hcd]

theorem noOcc_append_cons {sep : List Char} {c : Char} {x y : List Char}
    (hc : c ∉ sep) (hx : NoOcc sep x) (hy : NoOcc sep y) :
    NoOcc sep (x ++ c :: y) := by
  intro i
  by_contra hne
  rw [Bool.not_eq_false] at hne
  rw [List.drop_append_eq_append_drop] at hne
  rcases le_or_lt i x.length with hi | hi
  · rw [Nat.sub_eq_zero_of_le hi, List.drop_zero] at hne
    rcases le_or_lt sep.length (x.drop i).length with hl | hl
    · exact absurd (isPre_of_append_left _ hne hl) (by simp [hx i])
    · exact hc (mem_of_isPre_spill _ hne hl)
  · rw [List.drop_eq_nil_of_le (le_of_lt hi), List.nil_append] at hne
    obtain ⟨j, hj⟩ : ∃ j, i - x.length = j + 1 := ⟨i - x.length - 1, by omega⟩
    rw [hj, List.drop_succ_cons] at hne
    exact absurd hne (by simp [hy j])

theorem noOccBefore_nil (sep : List Char) : NoOccBefore sep [] := by
  intro i hi
  simp at hi

theorem noOccBefore_tail {sep : List Char} {x : Char} {a : List Char}
    (h : NoOccBefore sep (x :: a)) : NoOccBefore sep a := by
  intro i hi
  have h' := h (i + 1) (by simpa using Nat.succ_lt_succ hi)
  simpa using h'

theorem noOccBefore_cons {sep : List Char} {x : Char} {a : List Char}
    (h0 : isPre sep ((x :: a) ++ sep) = false) (h : NoOccBefore sep a) :
    NoOccBefore sep (x :: a) := by
  intro i hi
  cases i with
  | zero => simpa using h0
  | succ j =>
    simp only [List.cons_append, List.drop_succ_cons]
    exact h j (by simpa using hi)

theorem noOccBefore_append_excl {s0 : Char} {sep1 x t : List Char}
    (hx : ∀ c ∈ x, c ≠ s0) (ht : NoOccBefore (s0 :: sep1) t) :
    NoOccBefore (s0 :: sep1) (x ++ t) := by
  induction x with
  | nil => simpa using ht
  | cons b bs ih =>
    refine noOccBefore_cons ?_ (ih (fun c hc => hx c (List.mem_cons_of_mem _ hc)))
    have hb : (s0 == b) = false := by
      simp [Ne.symm (hx b (List.mem_cons_self _ _))]
    simp [isPre, hb]

theorem noOccBefore_singleton {c : Char} {x : List Char} (hc : c ∉ x) :
    NoOccBefore [c] x := by
  have h := @noOccBefore_append_excl c [] x []
    (fun d hd => fun he => hc (he ▸ hd)) (noOccBefore_nil _)
  simpa using h

theorem splitSeqF_nil (sep : List Char) (fuel : Nat) : splitSeqF sep fuel [] = [[]] := by
  cases fuel <;> rfl

theorem splitSeqF_ne_nil (sep : List Char) (fuel : Nat) (xs : List Char) :
    splitSeqF sep fuel xs ≠ [] := by
  cases fuel with
  | zero => cases xs <;> simp [splitSeqF]
  | succ fuel =>
    cases xs with
    | nil => simp [splitSeqF]
    | cons x xs =>
      simp only [splitSeqF]
      split
      · simp
      · split <;> simp

theorem pySplit_ne_nil (sep xs : List Char) : pySplit sep xs ≠ [] :=
  splitSeqF_ne_nil sep xs.length xs

theorem splitSeqF_eq_pySplit {sep : List Char} (hs : sep ≠ []) :
    ∀ fuel xs, xs.length ≤ fuel → splitSeqF sep fuel xs = pySplit sep xs := by
  intro fuel
  induction fuel using Nat.strong_induction_on with
  | _ fuel ih =>
    intro xs hxs
    cases xs with
    | nil => rw [splitSeqF_nil]; rfl
    | cons x xs =>
      cases fuel with
      | zero => simp at hxs
      | succ fuel =>
        have hsep : 1 ≤ sep.length := List.length_pos.mpr hs
        have hlen : xs.length + 1 ≤ fuel + 1 := by simpa using hxs
        have hd : ((x :: xs).drop sep.length).length ≤ xs.length := by
          simp only [List.length_drop, List.length_cons]
          omega
        show splitSeqF sep (fuel + 1) (x :: xs) = splitSeqF sep (x :: xs).length (x :: xs)
        rw [List.length_cons]
        cases hp : isPre sep (x :: xs) with
        | true =>
          simp only [splitSeqF, hp, if_true]
          rw [ih fuel (Nat.lt_succ_self _) _ (le_trans hd (by omega)),
              ih xs.length (by omega) _ hd]
        | false =>
          simp only [splitSeqF, hp, Bool.false_eq_true, if_false]
          rw [ih fuel (Nat.lt_succ_self _) xs (by omega),
              ih xs.length (by omega) xs (le_refl _)]

theorem pySplit_cons {sep : List Char} (hs : sep ≠ []) (x : Char) (xs : List Char) :
    pySplit sep (x :: xs) =
      if isPre sep (x :: xs) then [] :: pySplit sep ((x :: xs).drop sep.length)
      else
        match pySplit sep xs with
        | [] => [[x]]
        | y :: ys => (x :: y) :: ys := by
  have hsep : 1 ≤ sep.length := List.length_pos.mpr hs
  have hd : ((x :: xs).drop sep.length).length ≤ xs.length := by
    simp only [List.length_drop, List.length_cons]
    omega
  show splitSeqF sep (x :: xs).length (x :: xs) = _
  rw [List.length_cons]
  cases hp : isPre sep (x :: xs) with
  | true =>
    simp only [splitSeqF, hp, if_true]
    rw [splitSeqF_eq_pySplit hs xs.length _ hd]
  | false =>
    simp only [splitSeqF, hp, Bool.false_eq_true, if_false]
    rfl

theorem pySplit_of_noOcc {sep xs : List Char} (hs : sep ≠ []) (h : NoOcc sep xs) :
    pySplit sep xs = [xs] := by
  induction xs with
  | nil => rfl
  | cons x xs ih =>
    have h0 : isPre sep (x :: xs) = false := h 0
    rw [pySplit_cons hs, if_neg (by simp [h0]), ih (noOcc_iff_cons.mp h).2]

theorem pySplit_append_sep {sep : List Char} (hs : sep ≠ []) :
    ∀ (a b : List Char), NoOccBefore sep a →
      pySplit sep (a ++ sep ++ b) = a :: pySplit sep b := by
  intro a
  induction a with
  | nil =>
    intro b _
    rw [List.nil_append]
    cases sep with
    | nil => exact absurd rfl hs
    | cons s ss =>
      rw [show (s :: ss) ++ b = s :: (ss ++ b) from rfl, pySplit_cons hs,
          if_pos (by simpa using isPre_self_append (s :: ss) b)]
      congr 1
      rw [show (s :: (ss ++ b)).drop (s :: ss).length = (ss ++ b).drop ss.length from by
            simp [List.drop_succ_cons],
          List.drop_left]
  | cons x a ih =>
    intro b hno
    have h00 : isPre sep ((x :: a) ++ sep) = false := by simpa using hno 0 (by simp)
    have h0 : isPre sep (x :: (a ++ sep ++ b)) = false := by
      by_contra hc
      rw [Bool.not_eq_false] at hc
      have hc2 : isPre sep (((x :: a) ++ sep) ++ b) = true := hc
      have hpre := isPre_of_append_left b hc2 (by simp; omega)
      simp only [List.cons_append] at hpre h00
      rw [hpre] at h00
      exact Bool.noConfusion h00
    rw [show (x :: a) ++ sep ++ b = x :: (a ++ sep ++ b) from rfl]
    rw [pySplit_cons hs, if_neg (by simpa using h0)]
    rw [ih b (noOccBefore_tail hno)]

theorem isPre_singleton_cons (c d : Char) (l : List Char) :
    isPre [c] (d :: l) = (c == d) := by
  simp [isPre, isPre_nil]

theorem pySplit_singleton_two_le (c : Char) (u v : List Char) :
    2 ≤ (pySplit [c] (u ++ c :: v)).length := by
  induction u with
  | nil =>
    rw [List.nil_append, pySplit_cons (by simp), if_pos (by simp [isPre_singleton_cons])]
    rw [show ((c :: v).drop ([c] : List Char).length) = v from rfl]
    have h1 := List.length_pos.mpr (pySplit_ne_nil [c] v)
    simp only [List.length_cons]
    omega
  | cons b bs ih =>
    rw [show (b :: bs) ++ c :: v = b :: (bs ++ c :: v) from rfl, pySplit_cons (by simp)]
    cases hb : isPre [c] (b :: (bs ++ c :: v)) with
    | true =>
      rw [if_pos (by simp [hb])]
      rw [show ((b :: (bs ++ c :: v)).drop ([c] : List Char).length) = bs ++ c :: v from rfl]
      have h1 := List.length_pos.mpr (pySplit_ne_nil [c] (bs ++ c :: v))
      simp only [List.length_cons]
      omega
    | false =>
      rw [if_neg (by simp [hb])]
      rcases hsp : pySplit [c] (bs ++ c :: v) with _ | ⟨y, ys⟩
      · exact absurd hsp (pySplit_ne_nil _ _)
      · rw [hsp] at ih
        simp only [List.length_cons] at ih ⊢
        omega

theorem lastD_pySplit_singleton {c : Char} {v : List Char} (u : List Char) (hv : c ∉ v) :
    lastD (pySplit [c] (u ++ c :: v)) = v := by
  induction u with
  | nil =>
    rw [List.nil_append, pySplit_cons (by simp), if_pos (by simp [isPre_singleton_cons])]
    rw [show ((c :: v).drop ([c] : List Char).length) = v from rfl]
    rw [pySplit_of_noOcc (by simp) (noOcc_singleton hv)]
    rfl
  | cons b bs ih =>
    rw [show (b :: bs) ++ c :: v = b :: (bs ++ c :: v) from rfl, pySplit_cons (by simp)]
    cases hb : isPre [c] (b :: (bs ++ c :: v)) with
    | true =>
      rw [if_pos (by simp [hb])]
      rw [show ((b :: (bs ++ c :: v)).drop ([c] : List Char).length) = bs ++ c :: v from rfl]
      rcases hsp : pySplit [c] (bs ++ c :: v) with _ | ⟨y, ys⟩
      · exact absurd hsp (pySplit_ne_nil _ _)
      · rw [hsp] at ih
        rw [show lastD ([] :: y :: ys) = lastD (y :: ys) from rfl]
        exact ih
    | false =>
      rw [if_neg (by simp [hb])]
      rcases hsp : pySplit [c] (bs ++ c :: v) with _ | ⟨y, ys⟩
      · exact absurd hsp (pySplit_ne_nil _ _)
      · have h2 := pySplit_singleton_two_le c bs v
        rw [hsp] at ih h2
        cases ys with
        | nil => simp at h2
        | cons y2 ys2 =>
          rw [show lastD ((b :: y) :: y2 :: ys2) = lastD (y2 :: ys2) from rfl]
          rw [show lastD (y :: y2 :: ys2) = lastD (y2 :: ys2) from rfl] at ih
          exact ih

theorem vdLoop_all_fail {dl : Nat → Bool} (chk : Nat → Bool) (hdl : ∀ n, dl n = false) :
    ∀ fuel count, vdLoop dl chk fuel count = (false, count + fuel) := by
  intro fuel
  induction fuel with
  | zero => intro count; simp [vdLoop]
  | succ fuel ih =>
    intro count
    simp only [vdLoop, hdl, Bool.false_and, Bool.false_eq_true, if_false, ih]
    congr 1
    omega

theorem fw_find_eq_find (key : List Char) (l : List Firmware) :
    fw_find key l = l.find? (fun f => occursB key f.name) := by
  induction l with
  | nil => rfl
  | cons f fs ih =>
    cases h : occursB key f.name with
    | true => simp [fw_find, List.find?, h]
    | false => simp [fw_find, List.find?, h, ih]

theorem fw_find_eq_none_iff (key : List Char) (l : List Firmware) :
    fw_find key l = none ↔ ∀ f ∈ l, occursB key f.name = false := by
  rw [fw_find_eq_find, List.find?_eq_none]
  simp

theorem df_loop_eq_find (key : List Char) (dl : Firmware → Nat → Bool)
    (chk : Firmware → List Char → Nat → Bool) (m : Nat) :
    ∀ (fw : List Firmware) (hs : List (List Char)),
      df_loop key dl chk m fw hs = fw.find? (fun f => occursB key f.name) := by
  intro fw
  induction fw with
  | nil => intro hs; rfl
  | cons f fs ih =>
    intro hs
    cases h : occursB key f.name with
    | true => simp [df_loop, List.find?, h]
    | false => simp [df_loop, List.find?, h, ih]

/-- C2: the claim says a verified download over an always-successful
transport with an always-matching hash returns success for every
maxAttempts at least 1.  At max_attempts = 1 the code performs the single
successful fetch (count becomes 1) and then the post-loop test
count >= max_attempts makes it return False: success on the last allowed
attempt is reported as failure. -/
theorem verified_download_one_attempt_bug :
    verified_download (fun _ => true) (fun _ => true) 1 = (false, 1) := rfl

/-- C8: with a transport that always fails, _verified_download returns
failure after performing exactly max_attempts fetch calls. -/
theorem verified_download_all_fail (dl chk : Nat → Bool) (max_attempts : Nat)
    (hdl : ∀ n, dl n = false) (_hmax : 1 ≤ max_attempts) :
    verified_download dl chk max_attempts = (false, max_attempts) := by
  unfold verified_download
  rw [vdLoop_all_fail chk hdl]
  simp

theorem verified_download_all_fail_witness :
    (1 ≤ 3) ∧ verified_download (fun _ => false) (fun _ => true) 3 = (false, 3) :=
  ⟨by decide, verified_download_all_fail (fun _ => false) (fun _ => true) 3
    (fun _ => rfl) (by decide)⟩

/-- C4 counterexample: the claim says _parse_router_model splits at the last
occurrence of " v"; on "X v1 v2" that would give name part "x-v1" and
version "v2", but the code (router_model.split(" v")) takes everything
before the first occurrence as the name and the segment between the first
and second occurrences as the version digits. -/
theorem parse_router_model_not_last_split :
    parse_router_model "X v1 v2".data = some ("x".data, "v1".data) ∧
      ("x".data, "v1".data) ≠ ("x-v1".data, "v2".data) := ⟨rfl, by decide⟩

/-- C4 amended: _parse_router_model splits at the first occurrence of " v":
the name part is everything before the first " v" (lower-cased, with
non-word characters replaced by hyphens) and the version is "v" followed by
the text between the first " v" and the next one (or the end of the
string). -/
theorem parse_router_model_first_split (pre post : List Char)
    (h : NoOccBefore " v".data pre) :
    parse_router_model (pre ++ " v".data ++ post) =
      some ((pre.map Char.toLower).map (fun c => if c.isAlphanum || c == '_' then c else '-'),
            'v' :: (pySplit " v".data post).headD []) := by
  unfold parse_router_model
  rw [pySplit_append_sep (by decide) pre post h]
  rcases hsp : pySplit " v".data post with _ | ⟨t1, ts⟩
  · exact absurd hsp (pySplit_ne_nil _ _)
  · simp

theorem parse_router_model_first_split_witness :
    parse_router_model "TP-LINK TL-WR841N/ND v9".data =
      some ("tp-link-tl-wr841n-nd".data, "v9".data) := by
  have h := parse_router_model_first_split "TP-LINK TL-WR841N/ND".data "9".data (by decide)
  exact h

/-- C7: for every catalog and every router model the normalizer accepts,
get_stored_firmware returns the first record (in catalog order) whose name
contains the key name-version as a substring, and answers "not found"
exactly when no record name contains the key. -/
theorem get_stored_firmware_first_match (firmwares : List Firmware)
    (router_model n v : List Char)
    (h : parse_router_model router_model = some (n, v)) :
    get_stored_firmware firmwares router_model =
        some (firmwares.find? (fun f => occursB (n ++ '-' :: v) f.name)) ∧
      (get_stored_firmware firmwares router_model = some none ↔
        ∀ f ∈ firmwares, occursB (n ++ '-' :: v) f.name = false) := by
  unfold get_stored_firmware
  rw [h]
  constructor
  · simp [fw_find_eq_find]
  · simp [fw_find_eq_none_iff]

theorem get_stored_firmware_first_match_witness :
    get_stored_firmware [demo_match_fst, demo_match_snd] "A v1".data =
        some (some demo_match_fst) ∧
      occursB ("a".data ++ '-' :: "v1".data) demo_match_snd.name = true := by
  have h := (get_stored_firmware_first_match [demo_match_fst, demo_match_snd]
    "A v1".data "a".data "v1".data rfl).1
  exact ⟨by rw [h]; rfl, by decide⟩

/-- C6: download_firmware returns the first manifest record whose name
contains the normalized key, for every outcome of the verified download
(the dl and chk oracles are universally quantified, so the record is
returned even when its verified download fails), and returns None exactly
when no manifest entry matches. -/
theorem download_firmware_list_matching (dl : Firmware → Nat → Bool)
    (chk : Firmware → List Char → Nat → Bool) (firmwares : List Firmware)
    (hashs : List (List Char)) (router_model n v : List Char) (m : Nat)
    (h : parse_router_model router_model = some (n, v)) :
    ((∃ f ∈ firmwares, occursB (n ++ '-' :: v) f.name = true) →
        ∃ f, download_firmware_list dl chk firmwares hashs router_model m = some (some f) ∧
          occursB (n ++ '-' :: v) f.name = true) ∧
      (download_firmware_list dl chk firmwares hashs router_model m = some none ↔
        ∀ f ∈ firmwares, occursB (n ++ '-' :: v) f.name = false) := by
  unfold download_firmware_list
  rw [h]
  simp only [Option.map_some']
  rw [df_loop_eq_find (n ++ '-' :: v) dl chk m firmwares hashs]
  constructor
  · rintro ⟨f, hf, hocc⟩
    have hsome : (firmwares.find? (fun f => occursB (n ++ '-' :: v) f.name)).isSome := by
      rw [List.find?_isSome]
      exact ⟨f, hf, by simpa using hocc⟩
    obtain ⟨g, hg⟩ := Option.isSome_iff_exists.mp hsome
    exact ⟨g, by rw [hg], by simpa using List.find?_some hg⟩
  · rw [Option.some_inj, List.find?_eq_none]
    simp

theorem download_firmware_list_matching_witness :
    (∃ f ∈ [demo_match_fst], occursB ("a".data ++ '-' :: "v1".data) f.name = true) ∧
      ∃ f, download_firmware_list (fun _ _ => false) (fun _ _ _ => false)
          [demo_match_fst] ["h1".data] "A v1".data 3 = some (some f) ∧
        occursB ("a".data ++ '-' :: "v1".data) f.name = true := by
  refine ⟨⟨demo_match_fst, by simp, by decide⟩, ?_⟩
  exact (download_firmware_list_matching (fun _ _ => false) (fun _ _ _ => false)
    [demo_match_fst] ["h1".data] "A v1".data "a".data "v1".data 3 rfl).1
    ⟨demo_match_fst, by simp, by decide⟩

/-- C1: the claim says download_all_firmwares returns exactly the entries
that verified successfully (size N - K).  Over a manifest with N = 2 entries
where both fail (K = 2), the claim demands an empty batch; the code instead
returns the second entry, never downloaded: del(firmwares[i]) during the
iteration shifts the next entry into the deleted slot and the loop index
skips it, so it survives into the returned list. -/
theorem download_all_firmwares_skips_entry_after_delete :
    (download_all_firmwares (fun _ => some demo_manifest_two_rows) (fun _ => true)
        (fun _ _ => false) (fun _ _ _ => true) "u".data "f".data "stable".data 3).map
      (fun l => l.map Firmware.name) =
    some ["gluon-ffb-2.0-sysupgrade.bin".data] := rfl

/-- C3 counterexample: parsing the manifest of the claim (rows 0-3 header,
row 4 the literal data row of the claim, footer from row 5) yields one
record, but its expected hash is the field "..." (the parser prefixes the
line with "[0]  " before splitting on single spaces, so index 4 lands two
fields early) and its name is "gluon-ffhl-1.2.3-sysupgrade. abc123hash"
(the extension is taken after the last dot of the whole line), not the
values the claim states. -/
theorem manifest_claimed_row_parses_differently :
    (get_all_firmwares (fun _ => some demo_manifest_claimed_row) (fun _ => true)
          "u".data "f".data "stable".data).map
        (fun q => (q.1.map Firmware.name, q.1.map Firmware.freifunk_verein,
                   q.1.map Firmware.version, q.2)) =
      some (["gluon-ffhl-1.2.3-sysupgrade. abc123hash".data], ["ffhl".data],
            ["1.2.3".data], ["...".data]) ∧
      ("...".data ≠ "abc123hash".data ∧
        "gluon-ffhl-1.2.3-sysupgrade. abc123hash".data ≠
          "gluon-ffhl-1.2.3-sysupgrade.bin".data) :=
  ⟨rfl, by decide⟩

/-- C3 amended: with the data row in the layout the parser is written for -
expected hash as the third whitespace-delimited field of the raw row (which
the parser, after prefixing "[index]  ", reads at single-space-split index
4) and the image file name as the last field - the same manifest yields
exactly one record with name gluon-ffhl-1.2.3-sysupgrade.bin, organization
ffhl, version 1.2.3 and expected hash abc123hash. -/
theorem manifest_real_row_parses_as_claimed :
    (get_all_firmwares (fun _ => some demo_manifest_real_row) (fun _ => true)
          "u".data "f".data "stable".data).map
        (fun q => (q.1.map Firmware.name, q.1.map Firmware.freifunk_verein,
                   q.1.map Firmware.version, q.2)) =
      some (["gluon-ffhl-1.2.3-sysupgrade.bin".data], ["ffhl".data],
            ["1.2.3".data], ["abc123hash".data]) := rfl

/-- C5 counterexample: get_firmware with download_all = true replaces the
catalog with the freshly downloaded batch; with an empty manifest the
previously stored record is gone afterwards, so a download operation does
remove records from the catalog. -/
theorem get_firmware_download_all_removes_records :
    demo_record ∈ [demo_record] ∧
      (get_firmware (fun _ => some demo_manifest_empty) (fun _ => true) (fun _ _ => true)
          (fun _ _ _ => true) [] [demo_record] "A v1".data "u".data "f".data
          "stable".data true).2 = [] ∧
      demo_record ∉
        (get_firmware (fun _ => some demo_manifest_empty) (fun _ => true) (fun _ _ => true)
            (fun _ _ _ => true) [] [demo_record] "A v1".data "u".data "f".data
            "stable".data true).2 := by
  have h2 : (get_firmware (fun _ => some demo_manifest_empty) (fun _ => true)
      (fun _ _ => true) (fun _ _ _ => true) [] [demo_record] "A v1".data "u".data
      "f".data "stable".data true).2 = ([] : List Firmware) := rfl
  exact ⟨by simp, h2, by simp [h2]⟩

/-- C5 amended: download_firmware and download_all_firmwares do not touch
the catalog at all, and get_firmware with download_all = false only appends
to it (the old catalog is a prefix of the new one); but get_firmware with
download_all = true replaces the catalog with the downloaded batch and may
drop previously stored records. -/
theorem get_firmware_no_download_all_appends (fsys : List Char → Option (List (List Char)))
    (dlm : Nat → Bool) (dl : Firmware → Nat → Bool)
    (chk : Firmware → List Char → Nat → Bool) (files : List (List Char))
    (state : List Firmware) (router_model base fpath release : List Char) :
    ∃ tl, (get_firmware fsys dlm dl chk files state router_model base fpath release
      false).2 = state ++ tl := by
  unfold get_firmware import_firmwares
  cases hg : get_stored_firmware
      (state ++ files.filterMap (import_record base fpath release)) router_model with
  | none => exact ⟨files.filterMap (import_record base fpath release), by simp [hg]⟩
  | some o =>
    cases o with
    | some f => exact ⟨files.filterMap (import_record base fpath release), by simp [hg]⟩
    | none =>
      cases hd : download_firmware fsys dlm dl chk base fpath release router_model 3 with
      | none => exact ⟨files.filterMap (import_record base fpath release), by simp [hg, hd]⟩
      | some res =>
        cases res with
        | some f =>
          exact ⟨files.filterMap (import_record base fpath release) ++ [f],
            by simp [hg, hd, List.append_assoc]⟩
        | none =>
          exact ⟨files.filterMap (import_record base fpath release),
            by simp [hg, hd]⟩

/-- C10: when every attempt of the manifest download fails, _download_manifest
returns the empty string as the manifest path, and reading that path raises
out of download_firmware and download_all_firmwares (none), rather than the
operations answering "not found" (some none) or an empty batch (some []). -/
theorem manifest_download_failure_raises (fsys : List Char → Option (List (List Char)))
    (dlm : Nat → Bool) (dl : Firmware → Nat → Bool)
    (chk : Firmware → List Char → Nat → Bool)
    (base fpath release router_model : List Char) (max_attemps : Nat)
    (hdl : ∀ n, dlm n = false) (hfs : fsys [] = none) :
    download_manifest dlm 3 fpath release = [] ∧
      download_firmware fsys dlm dl chk base fpath release router_model max_attemps =
        none ∧
      download_all_firmwares fsys dlm dl chk base fpath release max_attemps = none := by
  have hm : download_manifest dlm 3 fpath release = [] := by
    unfold download_manifest
    rw [vdLoop_all_fail (fun _ => true) hdl 3 0]
    rfl
  have hr : read_firmwares_from_manifest fsys dlm fpath release = none := by
    unfold read_firmwares_from_manifest
    rw [hm, hfs]
    rfl
  have hg : get_all_firmwares fsys dlm base fpath release = none := by
    unfold get_all_firmwares
    rw [hr]
    rfl
  refine ⟨hm, ?_, ?_⟩
  · unfold download_firmware
    rw [hg]
    rfl
  · unfold download_all_firmwares
    rw [hg]
    rfl

theorem manifest_download_failure_raises_witness :
    download_manifest (fun _ => false) 3 "f".data "stable".data = [] ∧
      download_firmware (fun _ => none) (fun _ => false) (fun _ _ => true)
        (fun _ _ _ => true) "u".data "f".data "stable".data "A v1".data 3 = none ∧
      download_all_firmwares (fun _ => none) (fun _ => false) (fun _ _ => true)
        (fun _ _ _ => true) "u".data "f".data "stable".data 3 = none :=
  manifest_download_failure_raises (fun _ => none) (fun _ => false) (fun _ _ => true)
    (fun _ _ _ => true) "u".data "f".data "stable".data "A v1".data 3
    (fun _ => rfl) rfl

theorem isPre_cons_neq {a b : Char} (as bs : List Char) (h : (a == b) = false) :
    isPre (a :: as) (b :: bs) = false := by
  simp [isPre, h]

theorem isPre_cons_cons (a : Char) (as : List Char) (b : Char) (bs : List Char) :
    isPre (a :: as) (b :: bs) = ((a == b) && isPre as bs) := rfl

theorem pySplit_canonical (org ver tail : List Char) (hor : '-' ∉ org) (hvr : '-' ∉ ver) :
    pySplit ['-'] ("gluon".data ++ ['-'] ++ (org ++ ['-'] ++ (ver ++ ['-'] ++ tail))) =
      "gluon".data :: org :: ver :: pySplit ['-'] tail := by
  rw [pySplit_append_sep (by decide) "gluon".data _ (by decide)]
  rw [pySplit_append_sep (by decide) org _ (noOccBefore_singleton hor)]
  rw [pySplit_append_sep (by decide) ver _ (noOccBefore_singleton hvr)]

/-- C9: for every file name following the canonical convention
gluon-org-version-sysupgrade.ext (hyphen-free organization and version
segments, dot- and newline-free extension, segments that do not themselves
embed the gluon or sysupgrade markers), the record import_firmwares rebuilds
from the file name and the record the manifest parser produces for the same
canonical name (placed as the last field of a well-formed manifest data row)
carry the same organization and the same version. -/
theorem import_and_parse_same_org_version
    (base fpath release org ver ext : List Char)
    (hor : '-' ∉ org) (hvr : '-' ∉ ver) (hed : '.' ∉ ext) (hen : '\n' ∉ ext)
    (hg1 : occursB "gluon".data org = false) (hg2 : occursB "gluon".data ver = false)
    (hg3 : occursB "gluon".data ext = false)
    (hsy1 : isPre "sysupgrade".data org = false)
    (hsy2 : isPre "sysupgrade".data ver = false) :
    (import_record base fpath release (canonical_name org ver ext)).map
        (fun f => (f.freifunk_verein, f.version)) = some (org, ver) ∧
      (parse_manifest_line base fpath release
          ("[0]  x y abc123hash ".data ++ canonical_name org ver ext ++ ['\n'])).map
        (fun p => (p.1.freifunk_verein, p.1.version)) = some (org, ver) := by
  have e1 : canonical_name org ver ext =
      "gluon".data ++ ['-'] ++ (org ++ ['-'] ++ (ver ++ ['-'] ++ ("sysupgrade.".data ++ ext))) := by
    unfold canonical_name
    rw [show "gluon-".data = "gluon".data ++ ['-'] from rfl,
        show ("-" : String).data = (['-'] : List Char) from rfl,
        show "-sysupgrade.".data = ['-'] ++ "sysupgrade.".data from rfl]
    simp [List.append_assoc]
  have himp : (import_record base fpath release (canonical_name org ver ext)).map
      (fun f => (f.freifunk_verein, f.version)) = some (org, ver) := by
    unfold import_record
    rw [e1, pySplit_canonical org ver _ hor hvr]
    rfl
  refine ⟨himp, ?_⟩
  have e2 : "[0]  x y abc123hash ".data ++ canonical_name org ver ext ++ ['\n'] =
      "[0]  x y abc123hash ".data ++ "gluon".data ++
        ('-' :: (org ++ '-' :: (ver ++ '-' :: ("sysupgrade".data ++ '.' :: (ext ++ ['\n']))))) := by
    unfold canonical_name
    rw [show "gluon-".data = "gluon".data ++ ['-'] from rfl,
        show ("-" : String).data = (['-'] : List Char) from rfl,
        show "-sysupgrade.".data = ['-'] ++ ("sysupgrade".data ++ ['.']) from rfl]
    simp [List.append_assoc]
  have hnR : NoOcc "gluon".data
      ('-' :: (org ++ '-' :: (ver ++ '-' :: ("sysupgrade".data ++ '.' :: (ext ++ ['\n']))))) := by
    have n1 : NoOcc "gluon".data (ext ++ '\n' :: []) :=
      noOcc_append_cons (by decide) (noOcc_of_occursB (by decide) hg3) (noOcc_nil (by decide))
    have n2 : NoOcc "gluon".data ("sysupgrade".data ++ '.' :: (ext ++ ['\n'])) :=
      noOcc_append_cons (by decide) (noOcc_of_occursB (by decide) (by decide)) n1
    have n3 : NoOcc "gluon".data (ver ++ '-' :: ("sysupgrade".data ++ '.' :: (ext ++ ['\n']))) :=
      noOcc_append_cons (by decide) (noOcc_of_occursB (by decide) hg2) n2
    have n4 : NoOcc "gluon".data
        (org ++ '-' :: (ver ++ '-' :: ("sysupgrade".data ++ '.' :: (ext ++ ['\n'])))) :=
      noOcc_append_cons (by decide) (noOcc_of_occursB (by decide) hg1) n3
    refine noOcc_iff_cons.mpr ⟨?_, n4⟩
    rw [show "gluon".data = 'g' :: "luon".data from rfl]
    exact isPre_cons_neq _ _ (by decide)
  have hA : pySplit "gluon".data
      ("[0]  x y abc123hash ".data ++ canonical_name org ver ext ++ ['\n']) =
      ["[0]  x y abc123hash ".data,
       '-' :: (org ++ '-' :: (ver ++ '-' :: ("sysupgrade".data ++ '.' :: (ext ++ ['\n']))))] := by
    rw [e2, pySplit_append_sep (by decide) _ _ (by decide), pySplit_of_noOcc (by decide) hnR]
  have hNB : NoOccBefore "-sysupgrade".data ('-' :: (org ++ '-' :: ver)) := by
    have m1 : NoOccBefore "-sysupgrade".data ver := by
      have h := @noOccBefore_append_excl '-' "sysupgrade".data ver []
        (fun c hc he => hvr (he ▸ hc)) (noOccBefore_nil _)
      simpa using h
    have m2 : NoOccBefore "-sysupgrade".data ('-' :: ver) := by
      refine noOccBefore_cons ?_ m1
      have hx : isPre "sysupgrade".data (ver ++ '-' :: "sysupgrade".data) = false := by
        by_contra hc
        rw [Bool.not_eq_false] at hc
        have h2 := isPre_through_cons "sysupgrade".data (by decide) hc
        rw [h2] at hsy2
        exact Bool.noConfusion hsy2
      show isPre ('-' :: "sysupgrade".data) ('-' :: (ver ++ '-' :: "sysupgrade".data)) = false
      rw [isPre_cons_cons, hx]
      simp
    have m3 : NoOccBefore "-sysupgrade".data (org ++ '-' :: ver) :=
      @noOccBefore_append_excl '-' "sysupgrade".data org ('-' :: ver)
        (fun c hc he => hor (he ▸ hc)) m2
    refine noOccBefore_cons ?_ m3
    have hx : isPre "sysupgrade".data ((org ++ '-' :: ver) ++ '-' :: "sysupgrade".data) = false := by
      by_contra hc
      rw [Bool.not_eq_false] at hc
      have h2 := isPre_through_cons "sysupgrade".data (by decide) hc
      have h3 := isPre_through_cons ver (by decide) h2
      rw [h3] at hsy1
      exact Bool.noConfusion hsy1
    show isPre ('-' :: "sysupgrade".data)
        ('-' :: ((org ++ '-' :: ver) ++ '-' :: "sysupgrade".data)) = false
    rw [isPre_cons_cons, hx]
    simp
  have hB : pySplit "-sysupgrade".data
      ('-' :: (org ++ '-' :: (ver ++ '-' :: ("sysupgrade".data ++ '.' :: (ext ++ ['\n']))))) =
      ('-' :: (org ++ '-' :: ver)) ::
        pySplit "-sysupgrade".data ('.' :: (ext ++ ['\n'])) := by
    rw [show ('-' :: (org ++ '-' :: (ver ++ '-' :: ("sysupgrade".data ++ '.' :: (ext ++ ['\n']))))) =
          ('-' :: (org ++ '-' :: ver)) ++ "-sysupgrade".data ++ ('.' :: (ext ++ ['\n'])) from by
        simp [List.append_assoc]]
    rw [pySplit_append_sep (by decide) _ _ hNB]
  have hD : (pySplit [' ']
      ("[0]  x y abc123hash ".data ++ canonical_name org ver ext ++ ['\n'])).get? 4 =
      some "abc123hash".data := by
    rw [show "[0]  x y abc123hash ".data ++ canonical_name org ver ext ++ ['\n'] =
          "[0]".data ++ [' '] ++
            ([] ++ [' '] ++
              ("x".data ++ [' '] ++
                ("y".data ++ [' '] ++
                  ("abc123hash".data ++ [' '] ++ (canonical_name org ver ext ++ ['\n']))))) from by
        rw [show "[0]  x y abc123hash ".data =
              "[0]".data ++ [' '] ++ ([] ++ [' '] ++ ("x".data ++ [' '] ++
                ("y".data ++ [' '] ++ ("abc123hash".data ++ [' '])))) from rfl]
        simp [List.append_assoc]]
    rw [pySplit_append_sep (by decide) "[0]".data _ (by decide)]
    rw [pySplit_append_sep (by decide) [] _ (noOccBefore_nil _)]
    rw [pySplit_append_sep (by decide) "x".data _ (by decide)]
    rw [pySplit_append_sep (by decide) "y".data _ (by decide)]
    rw [pySplit_append_sep (by decide) "abc123hash".data _ (by decide)]
    rfl
  have hC : List.filter (fun a => a != '\n')
      (lastD (pySplit ['.']
        ("[0]  x y abc123hash ".data ++ canonical_name org ver ext ++ ['\n']))) = ext := by
    rw [show "[0]  x y abc123hash ".data ++ canonical_name org ver ext ++ ['\n'] =
          ("[0]  x y abc123hash ".data ++ "gluon-".data ++ org ++ "-".data ++ ver ++
            "-sysupgrade".data) ++ '.' :: (ext ++ ['\n']) from by
        unfold canonical_name
        rw [show "-sysupgrade.".data = "-sysupgrade".data ++ ['.'] from rfl]
        simp [List.append_assoc]]
    rw [lastD_pySplit_singleton _ (by
        intro hmem
        rcases List.mem_append.mp hmem with h1 | h1
        · exact hed h1
        · simp at h1)]
    rw [List.filter_append]
    rw [List.filter_eq_self.mpr (fun a ha => by
        have hne2 : a ≠ '\n' := fun he => hen (he ▸ ha)
        simpa using hne2)]
    simp
  have hname2 : pySplit ['-']
      ("gluon".data ++ ('-' :: (org ++ '-' :: ver)) ++ '-' :: UPDATE_TYPE ++ '.' :: ext) =
      "gluon".data :: org :: ver :: pySplit ['-'] ("sysupgrade".data ++ '.' :: ext) := by
    rw [show "gluon".data ++ ('-' :: (org ++ '-' :: ver)) ++ '-' :: UPDATE_TYPE ++ '.' :: ext =
          "gluon".data ++ ['-'] ++
            (org ++ ['-'] ++ (ver ++ ['-'] ++ ("sysupgrade".data ++ '.' :: ext))) from by
        unfold UPDATE_TYPE
        simp [List.append_assoc]]
    exact pySplit_canonical org ver _ hor hvr
  unfold parse_manifest_line
  rw [hA]
  simp only [] at hB hC hD hname2
  simp only []
  rw [hD]
  simp only []
  rw [hB, List.headD_cons, hC, hname2]
  rfl

theorem import_and_parse_same_org_version_witness :
    (import_record "u".data "f".data "stable".data
        (canonical_name "ffhl".data "1.2.3".data "bin".data)).map
      (fun f => (f.freifunk_verein, f.version)) = some ("ffhl".data, "1.2.3".data) ∧
    (parse_manifest_line "u".data "f".data "stable".data
        ("[0]  x y abc123hash ".data ++ canonical_name "ffhl".data "1.2.3".data "bin".data ++
          ['\n'])).map (fun p => (p.1.freifunk_verein, p.1.version)) =
      some ("ffhl".data, "1.2.3".data) :=
  import_and_parse_same_org_version "u".data "f".data "stable".data
    "ffhl".data "1.2.3".data "bin".data (by decide) (by decide) (by decide) (by decide)
    (by decide) (by decide) (by decide) (by decide) (by decide)
